import Mathlib

/-!
Verification of the event-connection mechanism (Emitter / Receiver) of
MethaneKit's Data module, as exercised by
`src/Modules/Data/Events/Test/EventsTest.cpp`.

The receiver-side callback state (`ReceiverState`, `onFoo`, `onBar`) is a
direct embedding of the `TestReceiver` class of the test source.  The
connection registry itself (`Methane/Data/Emitter.hpp`) is not among the
available sources, so the registry operations are modelled from the
specification's description of Connect / Disconnect / Emit / destruction.
The C++ `float` field is modelled as `Rat`: the mechanism only copies and
compares the value, never computes with it.
-/

namespace MethaneEvents

/-- Callback state of one `TestReceiver`
(src/Modules/Data/Events/Test/EventsTest.cpp, fields `m_foo_call_count`,
`m_bar_call_count`, `m_bar_a`, `m_bar_b`, `m_bar_c` with their default
initializers `0u, 0u, 0, false, 0.f`). -/
structure ReceiverState where
  foo_call_count : Nat
  bar_call_count : Nat
  bar_a : Int
  bar_b : Bool
  bar_c : Rat
deriving DecidableEq, Repr

/-- Default-constructed `TestReceiver` state (all counters zero, `bar`
arguments at their default initializers). -/
def ReceiverState.start : ReceiverState := ⟨0, 0, 0, false, 0⟩

/-- `TestReceiver::Foo` from the test source: increments the Foo call
counter and touches nothing else. -/
def onFoo (s : ReceiverState) : ReceiverState :=
  { s with foo_call_count := s.foo_call_count + 1 }

/-- `TestReceiver::Bar(a, b, c)` from the test source: increments the Bar
call counter and records the three arguments. -/
def onBar (a : Int) (b : Bool) (c : Rat) (s : ReceiverState) : ReceiverState :=
  { s with bar_call_count := s.bar_call_count + 1, bar_a := a, bar_b := b, bar_c := c }

/-- Modelled from the spec: the world of all live emitters and receivers
(the `Emitter.hpp` / `Receiver.hpp` sources are unavailable).  `emitters`
holds the live emitter identities; `receivers` the live receivers with
their callback state; `eside` the emitter-side view of the connections, in
registration order; `rside` the receiver-side view of the same
connections, maintained independently by the receiver bookkeeping. -/
structure World where
  emitters : List Nat
  receivers : List (Nat × ReceiverState)
  eside : List (Nat × Nat)
  rside : List (Nat × Nat)
deriving DecidableEq, Repr

/-- Look up the callback state of a receiver in an association list. -/
def lookupState : List (Nat × ReceiverState) → Nat → Option ReceiverState
  | [], _ => none
  | p :: ps, r => if p.1 = r then some p.2 else lookupState ps r

/-- Apply a callback body `f` to the state of receiver `r` (the first
matching entry), leaving every other receiver untouched. -/
def updateList (f : ReceiverState → ReceiverState) :
    List (Nat × ReceiverState) → Nat → List (Nat × ReceiverState)
  | [], _ => []
  | p :: ps, r => if p.1 = r then (p.1, f p.2) :: ps else p :: updateList f ps r

/-- The callback state of receiver `r` in world `w` (`none` if destroyed
or never created). -/
def stateOf (w : World) (r : Nat) : Option ReceiverState :=
  lookupState w.receivers r

/-- Invoke callback body `f` on receiver `r` of world `w`. -/
def updateState (w : World) (r : Nat) (f : ReceiverState → ReceiverState) : World :=
  { w with receivers := updateList f w.receivers r }

/-- The identities of the live receivers of a world. -/
def recvIds (w : World) : List Nat :=
  w.receivers.map (fun q => q.1)

/-- Receivers connected to emitter `e` in a side view, in registration
order. -/
def recOf : List (Nat × Nat) → Nat → List Nat
  | [], _ => []
  | p :: ps, e => if p.1 = e then p.2 :: recOf ps e else recOf ps e

/-- Emitters connected to receiver `r` in a side view. -/
def emOf : List (Nat × Nat) → Nat → List Nat
  | [], _ => []
  | p :: ps, r => if p.2 = r then p.1 :: emOf ps r else emOf ps r

/-- Modelled from the spec: the emitter's ordered collection of currently
connected receivers. -/
def receiversOf (w : World) (e : Nat) : List Nat :=
  recOf w.eside e

/-- Modelled from the spec: the receiver's set of currently connected
emitters. -/
def emittersOf (w : World) (r : Nat) : List Nat :=
  emOf w.rside r

/-- Remove every occurrence of one connection pair from a side view. -/
def removePair : List (Nat × Nat) → Nat × Nat → List (Nat × Nat)
  | [], _ => []
  | q :: qs, p => if q = p then removePair qs p else q :: removePair qs p

/-- Remove every connection pair whose receiver endpoint is `r`. -/
def dropRecv : List (Nat × Nat) → Nat → List (Nat × Nat)
  | [], _ => []
  | q :: qs, r => if q.2 = r then dropRecv qs r else q :: dropRecv qs r

/-- Remove every connection pair whose emitter endpoint is `e`. -/
def dropEmit : List (Nat × Nat) → Nat → List (Nat × Nat)
  | [], _ => []
  | q :: qs, e => if q.1 = e then dropEmit qs e else q :: dropEmit qs e

/-- Remove every occurrence of an element from a list of identities. -/
def removeAll : List Nat → Nat → List Nat
  | [], _ => []
  | x :: xs, r => if x = r then removeAll xs r else x :: removeAll xs r

/-- Drop the association-list entry of receiver `r`. -/
def dropState : List (Nat × ReceiverState) → Nat → List (Nat × ReceiverState)
  | [], _ => []
  | p :: ps, r => if p.1 = r then dropState ps r else p :: dropState ps r

/-- Modelled from the spec: `Emitter::Connect(receiver)` — registers the
receiver on the emitter's side and the emitter on the receiver's side in
the same operation; idempotent, so a pair already present is left
untouched (no duplicate entries). -/
def connect (w : World) (e r : Nat) : World :=
  if (e, r) ∈ w.eside then w
  else { w with eside := w.eside ++ [(e, r)], rside := (e, r) :: w.rside }

/-- Modelled from the spec: `Emitter::Disconnect(receiver)` — removes the
connection symmetrically from both side views; a no-op when the pair is
absent. -/
def disconnect (w : World) (e r : Nat) : World :=
  { w with eside := removePair w.eside (e, r), rside := removePair w.rside (e, r) }

/-- Modelled from the spec: the `Receiver` destructor — the receiver
removes itself from every emitter it is connected to (both side views)
and its callback state ceases to exist. -/
def destroyReceiver (w : World) (r : Nat) : World :=
  { emitters := w.emitters
    receivers := dropState w.receivers r
    eside := dropRecv w.eside r
    rside := dropRecv w.rside r }

/-- Modelled from the spec: the `Emitter` destructor — every
currently-connected receiver's reciprocal back-reference to this emitter
is removed; receivers are neither destroyed nor notified. -/
def destroyEmitter (w : World) (e : Nat) : World :=
  { emitters := removeAll w.emitters e
    receivers := w.receivers
    eside := dropEmit w.eside e
    rside := dropEmit w.rside e }

/-- Create a fresh, default-constructed receiver. -/
def addReceiver (w : World) (r : Nat) : World :=
  { w with receivers := w.receivers ++ [(r, ReceiverState.start)] }

/-- Create a fresh emitter (no connections yet). -/
def addEmitter (w : World) (e : Nat) : World :=
  { w with emitters := w.emitters ++ [e] }

/-- Modelled from the spec: the emission loop of `Emitter::Emit`.  The
list argument is the snapshot of connected receivers taken when the
emission started; a receiver is invoked only if it is still connected
when the iteration reaches it.  The callback `cb` may itself mutate the
world (self-disconnect, third-party disconnect, connect).  Returns the
final world together with the list of receivers actually invoked, in
invocation order. -/
def emitGo (e : Nat) (cb : Nat → World → World) :
    List Nat → World → World × List Nat
  | [], w => (w, [])
  | r :: l, w =>
    if (e, r) ∈ w.eside then
      let res := emitGo e cb l (cb r w)
      (res.1, r :: res.2)
    else
      emitGo e cb l w

/-- Modelled from the spec: `Emitter::Emit` — snapshot the currently
connected receivers, then run the emission loop. -/
def emitRun (w : World) (e : Nat) (cb : Nat → World → World) : World × List Nat :=
  emitGo e cb (receiversOf w e) w

/-- `TestEmitter::EmitFoo` of the test source: emit the no-argument `Foo`
callback. -/
def emitFoo (w : World) (e : Nat) : World :=
  (emitRun w e (fun r w' => updateState w' r onFoo)).1

/-- `TestEmitter::EmitBar(a, b, c)` of the test source: emit `Bar`
forwarding the three arguments unchanged. -/
def emitBar (w : World) (e : Nat) (a : Int) (b : Bool) (c : Rat) : World :=
  (emitRun w e (fun r w' => updateState w' r (onBar a b c))).1

/-- A callback family for re-entrancy scenarios: receiver `r0` bumps its
Foo counter and then disconnects itself from emitter `e` from inside its
own callback; every other receiver just bumps its Foo counter. -/
def selfDiscCb (e r0 : Nat) (r : Nat) (w : World) : World :=
  if r = r0 then disconnect (updateState w r onFoo) e r0
  else updateState w r onFoo

/-- Number of occurrences of an identity in a connection-set listing. -/
def countOcc : List Nat → Nat → Nat
  | [], _ => 0
  | x :: xs, r => (if x = r then 1 else 0) + countOcc xs r

/-- A sequence of `EmitFoo` calls, one per listed emitter, in order
(the loop of TEST_CASE "Connect Many Emitters to 1 Receiver"). -/
def emitSeq (w : World) : List Nat → World
  | [] => w
  | e :: es => emitSeq (emitFoo w e) es

/-- The world with no emitters and no receivers. -/
def emptyWorld : World := ⟨[], [], [], []⟩

/-- Concrete scenario world: one emitter (0) connected to two
default-constructed receivers (1 and 2). -/
def Wone : World :=
  connect (connect (addReceiver (addReceiver (addEmitter emptyWorld 0) 1) 2) 0 1) 0 2

/-- Concrete scenario world: one emitter (0) connected to three
default-constructed receivers (1, 2 and 3). -/
def Wthree : World :=
  connect (connect (connect
    (addReceiver (addReceiver (addReceiver (addEmitter emptyWorld 0) 1) 2) 3) 0 1) 0 2) 0 3

/-- Concrete scenario world of TEST_CASE "Connect 1 Emitter to Many
Receivers": one emitter (0) connected to five default-constructed
receivers (1..5). -/
def Wbar5 : World :=
  [1, 2, 3, 4, 5].foldl (fun w r => connect w 0 r)
    ([1, 2, 3, 4, 5].foldl addReceiver (addEmitter emptyWorld 0))

/-- Concrete scenario world of TEST_CASE "Connect Many Emitters to 1
Receiver": five emitters (0..4) all connected to one default-constructed
receiver (10). -/
def Wfoo5 : World :=
  [0, 1, 2, 3, 4].foldl (fun w e => connect w e 10)
    (addReceiver ([0, 1, 2, 3, 4].foldl addEmitter emptyWorld) 10)

/-- The test constant `g_bar_c = 2.3f`, as the exact rational 23/10
(built with the raw constructor so that kernel evaluation never has to
normalize a fraction). -/
def barCval : Rat := Rat.mk' 23 10 (by norm_num) (by norm_num)

/-- A callback family for re-entrancy scenarios: receiver `r0` bumps its
Foo counter and then disconnects a third receiver `r1` from emitter `e`
from inside its own callback; every other receiver just bumps its Foo
counter. -/
def otherDiscCb (e r0 r1 : Nat) (r : Nat) (w : World) : World :=
  if r = r0 then disconnect (updateState w r onFoo) e r1
  else updateState w r onFoo

/-- Well-formedness invariant of a world, modelled from the spec's global
invariant: the emitter-side and receiver-side views agree (no connection
visible from only one side), neither view holds duplicate entries, every
connection endpoint is live, and receiver identities are unique. -/
def WF (w : World) : Prop :=
  (∀ p ∈ w.eside, p ∈ w.rside) ∧
  (∀ p ∈ w.rside, p ∈ w.eside) ∧
  w.eside.Nodup ∧
  w.rside.Nodup ∧
  (∀ p ∈ w.eside, p.1 ∈ w.emitters ∧ p.2 ∈ recvIds w) ∧
  (recvIds w).Nodup

instance (w : World) : Decidable (WF w) := by
  unfold WF
  infer_instance

/-! ### Unfolding equations for the recursive list helpers -/

theorem lookupState_cons (p : Nat × ReceiverState) (ps : List (Nat × ReceiverState)) (r : Nat) :
    lookupState (p :: ps) r = if p.1 = r then some p.2 else lookupState ps r := rfl

theorem updateList_cons (f : ReceiverState → ReceiverState)
    (p : Nat × ReceiverState) (ps : List (Nat × ReceiverState)) (r : Nat) :
    updateList f (p :: ps) r =
      if p.1 = r then (p.1, f p.2) :: ps else p :: updateList f ps r := rfl

theorem recOf_cons (p : Nat × Nat) (ps : List (Nat × Nat)) (e : Nat) :
    recOf (p :: ps) e = if p.1 = e then p.2 :: recOf ps e else recOf ps e := rfl

theorem emOf_cons (p : Nat × Nat) (ps : List (Nat × Nat)) (r : Nat) :
    emOf (p :: ps) r = if p.2 = r then p.1 :: emOf ps r else emOf ps r := rfl

theorem removePair_cons (q : Nat × Nat) (qs : List (Nat × Nat)) (p : Nat × Nat) :
    removePair (q :: qs) p = if q = p then removePair qs p else q :: removePair qs p := rfl

theorem dropRecv_cons (q : Nat × Nat) (qs : List (Nat × Nat)) (r : Nat) :
    dropRecv (q :: qs) r = if q.2 = r then dropRecv qs r else q :: dropRecv qs r := rfl

theorem dropEmit_cons (q : Nat × Nat) (qs : List (Nat × Nat)) (e : Nat) :
    dropEmit (q :: qs) e = if q.1 = e then dropEmit qs e else q :: dropEmit qs e := rfl

theorem removeAll_cons (x : Nat) (xs : List Nat) (r : Nat) :
    removeAll (x :: xs) r = if x = r then removeAll xs r else x :: removeAll xs r := rfl

theorem dropState_cons (p : Nat × ReceiverState) (ps : List (Nat × ReceiverState)) (r : Nat) :
    dropState (p :: ps) r = if p.1 = r then dropState ps r else p :: dropState ps r := rfl

/-! ### Basic lemmas about the list-level helpers -/

theorem lookupState_update_self (f : ReceiverState → ReceiverState) :
    ∀ (l : List (Nat × ReceiverState)) (r : Nat),
      lookupState (updateList f l r) r = (lookupState l r).map f := by
  intro l
  induction l with
  | nil => intro r; rfl
  | cons p ps ih =>
    intro r
    by_cases h : p.1 = r
    · simp [lookupState_cons, updateList_cons, h]
    · simp [lookupState_cons, updateList_cons, h, ih r]

theorem lookupState_update_ne (f : ReceiverState → ReceiverState) :
    ∀ (l : List (Nat × ReceiverState)) (r r' : Nat), r' ≠ r →
      lookupState (updateList f l r) r' = lookupState l r' := by
  intro l
  induction l with
  | nil => intro r r' _; rfl
  | cons p ps ih =>
    intro r r' hne
    have hne' : ¬ r = r' := fun hc => hne hc.symm
    by_cases h : p.1 = r
    · simp [lookupState_cons, updateList_cons, h, hne']
    · by_cases h' : p.1 = r'
      · simp [lookupState_cons, updateList_cons, h, h', hne]
      · simp [lookupState_cons, updateList_cons, h, h', ih r r' hne]

theorem updateList_ids (f : ReceiverState → ReceiverState) :
    ∀ (l : List (Nat × ReceiverState)) (r : Nat),
      (updateList f l r).map (fun q => q.1) = l.map (fun q => q.1) := by
  intro l
  induction l with
  | nil => intro r; rfl
  | cons p ps ih =>
    intro r
    by_cases h : p.1 = r
    · simp [updateList_cons, h]
    · simp [updateList_cons, h, ih r]

theorem recOf_mem : ∀ (l : List (Nat × Nat)) (e x : Nat),
    x ∈ recOf l e ↔ (e, x) ∈ l := by
  intro l
  induction l with
  | nil => intro e x; simp [recOf]
  | cons p ps ih =>
    intro e x
    by_cases h : p.1 = e
    · simp only [recOf_cons, if_pos h, List.mem_cons, ih]
      constructor
      · rintro (rfl | hm)
        · exact Or.inl (by rw [← h])
        · exact Or.inr hm
      · rintro (hq | hm)
        · exact Or.inl (congrArg Prod.snd hq)
        · exact Or.inr hm
    · simp only [recOf_cons, if_neg h, ih, List.mem_cons]
      constructor
      · exact Or.inr
      · rintro (h' | h')
        · exact absurd (congrArg Prod.fst h'.symm) h
        · exact h'

theorem emOf_mem : ∀ (l : List (Nat × Nat)) (r x : Nat),
    x ∈ emOf l r ↔ (x, r) ∈ l := by
  intro l
  induction l with
  | nil => intro r x; simp [emOf]
  | cons p ps ih =>
    intro r x
    by_cases h : p.2 = r
    · simp only [emOf_cons, if_pos h, List.mem_cons, ih]
      constructor
      · rintro (rfl | hm)
        · exact Or.inl (by rw [← h])
        · exact Or.inr hm
      · rintro (hq | hm)
        · exact Or.inl (congrArg Prod.fst hq)
        · exact Or.inr hm
    · simp only [emOf_cons, if_neg h, ih, List.mem_cons]
      constructor
      · exact Or.inr
      · rintro (h' | h')
        · exact absurd (congrArg Prod.snd h'.symm) h
        · exact h'

theorem recOf_nodup : ∀ (l : List (Nat × Nat)) (e : Nat),
    l.Nodup → (recOf l e).Nodup := by
  intro l
  induction l with
  | nil => intro e _; simp [recOf]
  | cons p ps ih =>
    intro e hnd
    rw [List.nodup_cons] at hnd
    by_cases h : p.1 = e
    · rw [recOf_cons, if_pos h, List.nodup_cons]
      refine ⟨fun hmem => ?_, ih e hnd.2⟩
      have := (recOf_mem ps e p.2).mp hmem
      rw [← h] at this
      exact hnd.1 this
    · rw [recOf_cons, if_neg h]
      exact ih e hnd.2

theorem emOf_nodup : ∀ (l : List (Nat × Nat)) (r : Nat),
    l.Nodup → (emOf l r).Nodup := by
  intro l
  induction l with
  | nil => intro r _; simp [emOf]
  | cons p ps ih =>
    intro r hnd
    rw [List.nodup_cons] at hnd
    by_cases h : p.2 = r
    · rw [emOf_cons, if_pos h, List.nodup_cons]
      refine ⟨fun hmem => ?_, ih r hnd.2⟩
      have := (emOf_mem ps r p.1).mp hmem
      rw [← h] at this
      exact hnd.1 this
    · rw [emOf_cons, if_neg h]
      exact ih r hnd.2

theorem removePair_mem : ∀ (l : List (Nat × Nat)) (p q : Nat × Nat),
    q ∈ removePair l p ↔ q ∈ l ∧ q ≠ p := by
  intro l
  induction l with
  | nil => intro p q; simp [removePair]
  | cons x xs ih =>
    intro p q
    by_cases h : x = p
    · rw [removePair_cons, if_pos h, ih]
      subst h
      simp only [List.mem_cons]
      constructor
      · rintro ⟨hm, hne⟩; exact ⟨Or.inr hm, hne⟩
      · rintro ⟨(rfl | hm), hne⟩
        · exact absurd rfl hne
        · exact ⟨hm, hne⟩
    · rw [removePair_cons, if_neg h]
      simp only [List.mem_cons, ih]
      constructor
      · rintro (rfl | ⟨hm, hne⟩)
        · exact ⟨Or.inl rfl, h⟩
        · exact ⟨Or.inr hm, hne⟩
      · rintro ⟨(rfl | hm), hne⟩
        · exact Or.inl rfl
        · exact Or.inr ⟨hm, hne⟩

theorem removePair_nodup : ∀ (l : List (Nat × Nat)) (p : Nat × Nat),
    l.Nodup → (removePair l p).Nodup := by
  intro l
  induction l with
  | nil => intro p _; simp [removePair]
  | cons x xs ih =>
    intro p hnd
    rw [List.nodup_cons] at hnd
    by_cases h : x = p
    · rw [removePair_cons, if_pos h]
      exact ih p hnd.2
    · rw [removePair_cons, if_neg h, List.nodup_cons]
      exact ⟨fun hm => hnd.1 ((removePair_mem xs p x).mp hm).1, ih p hnd.2⟩

theorem removePair_eq_self : ∀ (l : List (Nat × Nat)) (p : Nat × Nat),
    p ∉ l → removePair l p = l := by
  intro l
  induction l with
  | nil => intro p _; rfl
  | cons x xs ih =>
    intro p hnm
    rw [List.mem_cons] at hnm
    push_neg at hnm
    rw [removePair_cons, if_neg (fun hc => hnm.1 hc.symm), ih p hnm.2]

theorem dropRecv_mem : ∀ (l : List (Nat × Nat)) (r : Nat) (q : Nat × Nat),
    q ∈ dropRecv l r ↔ q ∈ l ∧ q.2 ≠ r := by
  intro l
  induction l with
  | nil => intro r q; simp [dropRecv]
  | cons x xs ih =>
    intro r q
    by_cases h : x.2 = r
    · rw [dropRecv_cons, if_pos h, ih]
      simp only [List.mem_cons]
      constructor
      · rintro ⟨hm, hne⟩; exact ⟨Or.inr hm, hne⟩
      · rintro ⟨(rfl | hm), hne⟩
        · exact absurd h hne
        · exact ⟨hm, hne⟩
    · rw [dropRecv_cons, if_neg h]
      simp only [List.mem_cons, ih]
      constructor
      · rintro (rfl | ⟨hm, hne⟩)
        · exact ⟨Or.inl rfl, h⟩
        · exact ⟨Or.inr hm, hne⟩
      · rintro ⟨(rfl | hm), hne⟩
        · exact Or.inl rfl
        · exact Or.inr ⟨hm, hne⟩

theorem dropRecv_nodup : ∀ (l : List (Nat × Nat)) (r : Nat),
    l.Nodup → (dropRecv l r).Nodup := by
  intro l
  induction l with
  | nil => intro r _; simp [dropRecv]
  | cons x xs ih =>
    intro r hnd
    rw [List.nodup_cons] at hnd
    by_cases h : x.2 = r
    · rw [dropRecv_cons, if_pos h]
      exact ih r hnd.2
    · rw [dropRecv_cons, if_neg h, List.nodup_cons]
      exact ⟨fun hm => hnd.1 ((dropRecv_mem xs r x).mp hm).1, ih r hnd.2⟩

theorem dropEmit_mem : ∀ (l : List (Nat × Nat)) (e : Nat) (q : Nat × Nat),
    q ∈ dropEmit l e ↔ q ∈ l ∧ q.1 ≠ e := by
  intro l
  induction l with
  | nil => intro e q; simp [dropEmit]
  | cons x xs ih =>
    intro e q
    by_cases h : x.1 = e
    · rw [dropEmit_cons, if_pos h, ih]
      simp only [List.mem_cons]
      constructor
      · rintro ⟨hm, hne⟩; exact ⟨Or.inr hm, hne⟩
      · rintro ⟨(rfl | hm), hne⟩
        · exact absurd h hne
        · exact ⟨hm, hne⟩
    · rw [dropEmit_cons, if_neg h]
      simp only [List.mem_cons, ih]
      constructor
      · rintro (rfl | ⟨hm, hne⟩)
        · exact ⟨Or.inl rfl, h⟩
        · exact ⟨Or.inr hm, hne⟩
      · rintro ⟨(rfl | hm), hne⟩
        · exact Or.inl rfl
        · exact Or.inr ⟨hm, hne⟩

theorem dropEmit_nodup : ∀ (l : List (Nat × Nat)) (e : Nat),
    l.Nodup → (dropEmit l e).Nodup := by
  intro l
  induction l with
  | nil => intro e _; simp [dropEmit]
  | cons x xs ih =>
    intro e hnd
    rw [List.nodup_cons] at hnd
    by_cases h : x.1 = e
    · rw [dropEmit_cons, if_pos h]
      exact ih e hnd.2
    · rw [dropEmit_cons, if_neg h, List.nodup_cons]
      exact ⟨fun hm => hnd.1 ((dropEmit_mem xs e x).mp hm).1, ih e hnd.2⟩

theorem removeAll_mem : ∀ (l : List Nat) (r x : Nat),
    x ∈ removeAll l r ↔ x ∈ l ∧ x ≠ r := by
  intro l
  induction l with
  | nil => intro r x; simp [removeAll]
  | cons y ys ih =>
    intro r x
    by_cases h : y = r
    · rw [removeAll_cons, if_pos h, ih]
      simp only [List.mem_cons]
      constructor
      · rintro ⟨hm, hne⟩; exact ⟨Or.inr hm, hne⟩
      · rintro ⟨(rfl | hm), hne⟩
        · exact absurd h hne
        · exact ⟨hm, hne⟩
    · rw [removeAll_cons, if_neg h]
      simp only [List.mem_cons, ih]
      constructor
      · rintro (rfl | ⟨hm, hne⟩)
        · exact ⟨Or.inl rfl, h⟩
        · exact ⟨Or.inr hm, hne⟩
      · rintro ⟨(rfl | hm), hne⟩
        · exact Or.inl rfl
        · exact Or.inr ⟨hm, hne⟩

theorem dropState_lookup_ne : ∀ (l : List (Nat × ReceiverState)) (r r' : Nat), r' ≠ r →
    lookupState (dropState l r) r' = lookupState l r' := by
  intro l
  induction l with
  | nil => intro r r' _; rfl
  | cons p ps ih =>
    intro r r' hne
    by_cases h : p.1 = r
    · have h2 : ¬ p.1 = r' := by rw [h]; exact fun hc => hne hc.symm
      rw [dropState_cons, if_pos h, lookupState_cons, if_neg h2]
      exact ih r r' hne
    · rw [dropState_cons, if_neg h, lookupState_cons, lookupState_cons]
      by_cases h' : p.1 = r'
      · rw [if_pos h', if_pos h']
      · rw [if_neg h', if_neg h']
        exact ih r r' hne

theorem dropState_ids : ∀ (l : List (Nat × ReceiverState)) (r x : Nat),
    x ∈ (dropState l r).map (fun q => q.1) ↔ x ∈ l.map (fun q => q.1) ∧ x ≠ r := by
  intro l
  induction l with
  | nil => intro r x; simp [dropState]
  | cons p ps ih =>
    intro r x
    by_cases h : p.1 = r
    · rw [dropState_cons, if_pos h, ih]
      simp only [List.map_cons, List.mem_cons]
      constructor
      · rintro ⟨hm, hne⟩; exact ⟨Or.inr hm, hne⟩
      · rintro ⟨(rfl | hm), hne⟩
        · exact absurd h hne
        · exact ⟨hm, hne⟩
    · rw [dropState_cons, if_neg h]
      simp only [List.map_cons, List.mem_cons, ih]
      constructor
      · rintro (rfl | ⟨hm, hne⟩)
        · exact ⟨Or.inl rfl, h⟩
        · exact ⟨Or.inr hm, hne⟩
      · rintro ⟨(rfl | hm), hne⟩
        · exact Or.inl rfl
        · exact Or.inr ⟨hm, hne⟩

theorem dropState_ids_nodup : ∀ (l : List (Nat × ReceiverState)) (r : Nat),
    (l.map (fun q => q.1)).Nodup → ((dropState l r).map (fun q => q.1)).Nodup := by
  intro l
  induction l with
  | nil => intro r _; simp [dropState]
  | cons p ps ih =>
    intro r hnd
    rw [List.map_cons, List.nodup_cons] at hnd
    by_cases h : p.1 = r
    · rw [dropState_cons, if_pos h]
      exact ih r hnd.2
    · rw [dropState_cons, if_neg h, List.map_cons, List.nodup_cons]
      exact ⟨fun hm => hnd.1 ((dropState_ids ps r p.1).mp hm).1, ih r hnd.2⟩

/-! ### Lemmas about state update and the emission loop -/

theorem updateState_eside (w : World) (r : Nat) (f : ReceiverState → ReceiverState) :
    (updateState w r f).eside = w.eside := rfl

theorem updateState_rside (w : World) (r : Nat) (f : ReceiverState → ReceiverState) :
    (updateState w r f).rside = w.rside := rfl

theorem updateState_emitters (w : World) (r : Nat) (f : ReceiverState → ReceiverState) :
    (updateState w r f).emitters = w.emitters := rfl

theorem updateState_recvIds (w : World) (r : Nat) (f : ReceiverState → ReceiverState) :
    recvIds (updateState w r f) = recvIds w :=
  updateList_ids f w.receivers r

theorem stateOf_update_self (w : World) (r : Nat) (f : ReceiverState → ReceiverState) :
    stateOf (updateState w r f) r = (stateOf w r).map f :=
  lookupState_update_self f w.receivers r

theorem stateOf_update_ne (w : World) (r r' : Nat) (f : ReceiverState → ReceiverState)
    (h : r' ≠ r) : stateOf (updateState w r f) r' = stateOf w r' :=
  lookupState_update_ne f w.receivers r r' h

theorem emitGo_nil (e : Nat) (cb : Nat → World → World) (w : World) :
    emitGo e cb [] w = (w, []) := rfl

theorem emitGo_cons (e : Nat) (cb : Nat → World → World) (r : Nat) (l : List Nat) (w : World) :
    emitGo e cb (r :: l) w =
      if (e, r) ∈ w.eside then
        ((emitGo e cb l (cb r w)).1, r :: (emitGo e cb l (cb r w)).2)
      else emitGo e cb l w := rfl

/-- A pure state-transforming callback (no structural change) fires on
every snapshot member that was connected at snapshot time, in order; the
final world is the fold of the state update over the snapshot. -/
theorem emitGo_pure (e : Nat) (f : ReceiverState → ReceiverState) :
    ∀ (l : List Nat) (w : World), (∀ r ∈ l, (e, r) ∈ w.eside) →
      emitGo e (fun r w' => updateState w' r f) l w =
        (l.foldl (fun w' r => updateState w' r f) w, l) := by
  intro l
  induction l with
  | nil => intro w _; rfl
  | cons r l ih =>
    intro w hconn
    have hr : (e, r) ∈ w.eside := hconn r (List.mem_cons_self r l)
    rw [emitGo_cons, if_pos hr]
    have htail : ∀ x ∈ l, (e, x) ∈ (updateState w r f).eside := by
      intro x hx
      rw [updateState_eside]
      exact hconn x (List.mem_cons_of_mem r hx)
    rw [ih (updateState w r f) htail]
    rfl

theorem foldl_update_eside (f : ReceiverState → ReceiverState) :
    ∀ (l : List Nat) (w : World),
      (l.foldl (fun w' r => updateState w' r f) w).eside = w.eside := by
  intro l
  induction l with
  | nil => intro w; rfl
  | cons r l ih => intro w; rw [List.foldl_cons, ih, updateState_eside]

theorem foldl_update_rside (f : ReceiverState → ReceiverState) :
    ∀ (l : List Nat) (w : World),
      (l.foldl (fun w' r => updateState w' r f) w).rside = w.rside := by
  intro l
  induction l with
  | nil => intro w; rfl
  | cons r l ih => intro w; rw [List.foldl_cons, ih, updateState_rside]

theorem foldl_update_emitters (f : ReceiverState → ReceiverState) :
    ∀ (l : List Nat) (w : World),
      (l.foldl (fun w' r => updateState w' r f) w).emitters = w.emitters := by
  intro l
  induction l with
  | nil => intro w; rfl
  | cons r l ih => intro w; rw [List.foldl_cons, ih, updateState_emitters]

theorem foldl_update_recvIds (f : ReceiverState → ReceiverState) :
    ∀ (l : List Nat) (w : World),
      recvIds (l.foldl (fun w' r => updateState w' r f) w) = recvIds w := by
  intro l
  induction l with
  | nil => intro w; rfl
  | cons r l ih => intro w; rw [List.foldl_cons, ih, updateState_recvIds]

theorem foldl_update_stateOf_not_mem (f : ReceiverState → ReceiverState) :
    ∀ (l : List Nat) (w : World) (r : Nat), r ∉ l →
      stateOf (l.foldl (fun w' x => updateState w' x f) w) r = stateOf w r := by
  intro l
  induction l with
  | nil => intro w r _; rfl
  | cons x l ih =>
    intro w r hnm
    rw [List.mem_cons] at hnm
    push_neg at hnm
    rw [List.foldl_cons, ih (updateState w x f) r hnm.2, stateOf_update_ne w x r f hnm.1]

/-- Folding a pure state update over a duplicate-free list applies the
update exactly once to each member and leaves every other receiver
untouched. -/
theorem foldl_update_stateOf (f : ReceiverState → ReceiverState) :
    ∀ (l : List Nat) (w : World) (r : Nat), l.Nodup →
      stateOf (l.foldl (fun w' x => updateState w' x f) w) r =
        if r ∈ l then (stateOf w r).map f else stateOf w r := by
  intro l
  induction l with
  | nil => intro w r _; rfl
  | cons x l ih =>
    intro w r hnd
    rw [List.nodup_cons] at hnd
    rw [List.foldl_cons]
    by_cases h : r = x
    · subst h
      rw [foldl_update_stateOf_not_mem f l (updateState w r f) r hnd.1,
        stateOf_update_self, if_pos (List.mem_cons_self r l)]
    · rw [ih (updateState w x f) r hnd.2, stateOf_update_ne w x r f h]
      by_cases hm : r ∈ l
      · rw [if_pos hm, if_pos (List.mem_cons_of_mem x hm)]
      · have : r ∉ x :: l := by
          rw [List.mem_cons]
          push_neg
          exact ⟨h, hm⟩
        rw [if_neg hm, if_neg this]

/-- The emission loop distributes over an append of the snapshot. -/
theorem emitGo_append (e : Nat) (cb : Nat → World → World) :
    ∀ (l1 l2 : List Nat) (w : World),
      emitGo e cb (l1 ++ l2) w =
        ((emitGo e cb l2 (emitGo e cb l1 w).1).1,
         (emitGo e cb l1 w).2 ++ (emitGo e cb l2 (emitGo e cb l1 w).1).2) := by
  intro l1
  induction l1 with
  | nil => intro l2 w; rfl
  | cons r l1 ih =>
    intro l2 w
    rw [List.cons_append, emitGo_cons, emitGo_cons]
    by_cases h : (e, r) ∈ w.eside
    · rw [if_pos h, if_pos h, ih l2 (cb r w)]
      rfl
    · rw [if_neg h, if_neg h, ih l2 w]

/-- Whatever the callbacks do, the receivers actually invoked form a
sublist of the snapshot: no receiver outside the snapshot is invoked, no
receiver is invoked twice (for a duplicate-free snapshot), and the
invocation order is the snapshot order. -/
theorem emitGo_invoked_sublist (e : Nat) (cb : Nat → World → World) :
    ∀ (l : List Nat) (w : World), (emitGo e cb l w).2.Sublist l := by
  intro l
  induction l with
  | nil => intro w; exact List.Sublist.refl []
  | cons r l ih =>
    intro w
    rw [emitGo_cons]
    by_cases h : (e, r) ∈ w.eside
    · rw [if_pos h]
      exact List.Sublist.cons₂ r (ih (cb r w))
    · rw [if_neg h]
      exact List.Sublist.cons r (ih w)

/-- Self-disconnect safety: when receiver `r0` disconnects itself from
the emitting emitter from inside its own callback, every snapshot
receiver (including `r0` itself) is still invoked exactly once. -/
theorem emitGo_selfDisc (e r0 : Nat) :
    ∀ (l : List Nat) (w : World), l.Nodup → (∀ r ∈ l, (e, r) ∈ w.eside) →
      (emitGo e (selfDiscCb e r0) l w).2 = l := by
  intro l
  induction l with
  | nil => intro w _ _; rfl
  | cons r l ih =>
    intro w hnd hconn
    rw [List.nodup_cons] at hnd
    have hr : (e, r) ∈ w.eside := hconn r (List.mem_cons_self r l)
    rw [emitGo_cons, if_pos hr]
    by_cases h : r = r0
    · subst h
      have hcb : selfDiscCb e r r w = disconnect (updateState w r onFoo) e r := by
        simp [selfDiscCb]
      have hgoal : ∀ x ∈ l, (e, x) ∈ (selfDiscCb e r r w).eside := by
        intro x hx
        have hxr : x ≠ r := fun hc => hnd.1 (hc ▸ hx)
        have hpair : ((e, x) : Nat × Nat) ≠ (e, r) := by
          intro hc
          exact hxr (congrArg Prod.snd hc)
        rw [hcb]
        exact (removePair_mem _ (e, r) (e, x)).mpr
          ⟨by rw [updateState_eside]; exact hconn x (List.mem_cons_of_mem r hx), hpair⟩
      rw [ih (selfDiscCb e r r w) hnd.2 hgoal]
    · have hgoal : ∀ x ∈ l, (e, x) ∈ (selfDiscCb e r0 r w).eside := by
        intro x hx
        have : selfDiscCb e r0 r w = updateState w r onFoo := by
          rw [selfDiscCb, if_neg h]
        rw [this, updateState_eside]
        exact hconn x (List.mem_cons_of_mem r hx)
      rw [ih (selfDiscCb e r0 r w) hnd.2 hgoal]

/-! ### World-level lemmas -/

theorem mem_receiversOf (w : World) (e r : Nat) :
    r ∈ receiversOf w e ↔ (e, r) ∈ w.eside :=
  recOf_mem w.eside e r

theorem mem_emittersOf (w : World) (e r : Nat) :
    e ∈ emittersOf w r ↔ (e, r) ∈ w.rside :=
  emOf_mem w.rside r e

theorem receiversOf_nodup (w : World) (e : Nat) (hwf : WF w) :
    (receiversOf w e).Nodup :=
  recOf_nodup w.eside e hwf.2.2.1

theorem emittersOf_nodup (w : World) (r : Nat) (hwf : WF w) :
    (emittersOf w r).Nodup :=
  emOf_nodup w.rside r hwf.2.2.2.1

/-- A pure-callback emission is the fold of the state update over the
snapshot of connected receivers. -/
theorem emit_pure_eq_foldl (w : World) (e : Nat) (f : ReceiverState → ReceiverState) :
    (emitRun w e (fun r w' => updateState w' r f)).1 =
      (receiversOf w e).foldl (fun w' r => updateState w' r f) w := by
  rw [emitRun,
    emitGo_pure e f (receiversOf w e) w (fun r hr => (mem_receiversOf w e r).mp hr)]

theorem stateOf_emit_pure (w : World) (e : Nat) (f : ReceiverState → ReceiverState)
    (r : Nat) (hnd : (receiversOf w e).Nodup) :
    stateOf ((emitRun w e (fun r' w' => updateState w' r' f)).1) r =
      if r ∈ receiversOf w e then (stateOf w r).map f else stateOf w r := by
  rw [emit_pure_eq_foldl, foldl_update_stateOf f (receiversOf w e) w r hnd]

theorem stateOf_emitFoo (w : World) (e : Nat) (r : Nat) (hnd : (receiversOf w e).Nodup) :
    stateOf (emitFoo w e) r =
      if r ∈ receiversOf w e then (stateOf w r).map onFoo else stateOf w r :=
  stateOf_emit_pure w e onFoo r hnd

theorem stateOf_emitBar (w : World) (e : Nat) (a : Int) (b : Bool) (c : Rat)
    (r : Nat) (hnd : (receiversOf w e).Nodup) :
    stateOf (emitBar w e a b c) r =
      if r ∈ receiversOf w e then (stateOf w r).map (onBar a b c) else stateOf w r :=
  stateOf_emit_pure w e (onBar a b c) r hnd

theorem emitFoo_eside (w : World) (e : Nat) : (emitFoo w e).eside = w.eside := by
  rw [emitFoo, emit_pure_eq_foldl, foldl_update_eside]

theorem emitFoo_rside (w : World) (e : Nat) : (emitFoo w e).rside = w.rside := by
  rw [emitFoo, emit_pure_eq_foldl, foldl_update_rside]

theorem emitFoo_emitters (w : World) (e : Nat) : (emitFoo w e).emitters = w.emitters := by
  rw [emitFoo, emit_pure_eq_foldl, foldl_update_emitters]

theorem emitFoo_recvIds (w : World) (e : Nat) : recvIds (emitFoo w e) = recvIds w := by
  rw [emitFoo, emit_pure_eq_foldl, foldl_update_recvIds]

theorem emitBar_eside (w : World) (e : Nat) (a : Int) (b : Bool) (c : Rat) :
    (emitBar w e a b c).eside = w.eside := by
  rw [emitBar, emit_pure_eq_foldl, foldl_update_eside]

theorem emitBar_rside (w : World) (e : Nat) (a : Int) (b : Bool) (c : Rat) :
    (emitBar w e a b c).rside = w.rside := by
  rw [emitBar, emit_pure_eq_foldl, foldl_update_rside]

theorem emitBar_emitters (w : World) (e : Nat) (a : Int) (b : Bool) (c : Rat) :
    (emitBar w e a b c).emitters = w.emitters := by
  rw [emitBar, emit_pure_eq_foldl, foldl_update_emitters]

theorem emitBar_recvIds (w : World) (e : Nat) (a : Int) (b : Bool) (c : Rat) :
    recvIds (emitBar w e a b c) = recvIds w := by
  rw [emitBar, emit_pure_eq_foldl, foldl_update_recvIds]

theorem connect_already (w : World) (e r : Nat) (h : (e, r) ∈ w.eside) :
    connect w e r = w := by
  rw [connect, if_pos h]

theorem connect_receivers (w : World) (e r : Nat) :
    (connect w e r).receivers = w.receivers := by
  rw [connect]
  split <;> rfl

theorem connect_stateOf (w : World) (e r r' : Nat) :
    stateOf (connect w e r) r' = stateOf w r' := by
  rw [stateOf, connect_receivers, stateOf]

theorem connect_mem_eside (w : World) (e r : Nat) :
    (e, r) ∈ (connect w e r).eside := by
  rw [connect]
  split
  · assumption
  · exact List.mem_append.mpr (Or.inr (List.mem_singleton.mpr rfl))

/-! ### Preservation of the well-formedness invariant -/

theorem wf_connect (w : World) (e r : Nat) (hwf : WF w)
    (he : e ∈ w.emitters) (hr : r ∈ recvIds w) : WF (connect w e r) := by
  by_cases h : (e, r) ∈ w.eside
  · rw [connect_already w e r h]
    exact hwf
  · obtain ⟨h1, h2, h3, h4, h5, h6⟩ := hwf
    rw [connect, if_neg h]
    refine ⟨?_, ?_, ?_, ?_, ?_, h6⟩
    · intro p hp
      rcases List.mem_append.mp hp with hp | hp
      · exact List.mem_cons_of_mem _ (h1 p hp)
      · rw [List.mem_singleton] at hp
        subst hp
        exact List.mem_cons_self _ _
    · intro p hp
      rcases List.mem_cons.mp hp with hp | hp
      · subst hp
        exact List.mem_append.mpr (Or.inr (List.mem_singleton.mpr rfl))
      · exact List.mem_append.mpr (Or.inl (h2 p hp))
    · exact List.Nodup.append h3 (List.nodup_singleton (e, r))
        (fun a ha hb => h ((List.mem_singleton.mp hb) ▸ ha))
    · exact List.nodup_cons.mpr ⟨fun hm => h (h2 (e, r) hm), h4⟩
    · intro p hp
      rcases List.mem_append.mp hp with hp | hp
      · exact h5 p hp
      · rw [List.mem_singleton] at hp
        subst hp
        exact ⟨he, hr⟩

theorem wf_disconnect (w : World) (e r : Nat) (hwf : WF w) : WF (disconnect w e r) := by
  obtain ⟨h1, h2, h3, h4, h5, h6⟩ := hwf
  rw [disconnect]
  refine ⟨?_, ?_, ?_, ?_, ?_, h6⟩
  · intro p hp
    obtain ⟨hm, hne⟩ := (removePair_mem w.eside (e, r) p).mp hp
    exact (removePair_mem w.rside (e, r) p).mpr ⟨h1 p hm, hne⟩
  · intro p hp
    obtain ⟨hm, hne⟩ := (removePair_mem w.rside (e, r) p).mp hp
    exact (removePair_mem w.eside (e, r) p).mpr ⟨h2 p hm, hne⟩
  · exact removePair_nodup w.eside (e, r) h3
  · exact removePair_nodup w.rside (e, r) h4
  · intro p hp
    exact h5 p ((removePair_mem w.eside (e, r) p).mp hp).1

theorem wf_emitFoo (w : World) (e : Nat) (hwf : WF w) : WF (emitFoo w e) := by
  obtain ⟨h1, h2, h3, h4, h5, h6⟩ := hwf
  refine ⟨?_, ?_, ?_, ?_, ?_, ?_⟩
  · intro p hp
    rw [emitFoo_eside] at hp
    rw [emitFoo_rside]
    exact h1 p hp
  · intro p hp
    rw [emitFoo_rside] at hp
    rw [emitFoo_eside]
    exact h2 p hp
  · rw [emitFoo_eside]
    exact h3
  · rw [emitFoo_rside]
    exact h4
  · intro p hp
    rw [emitFoo_eside] at hp
    rw [emitFoo_emitters, emitFoo_recvIds]
    exact h5 p hp
  · rw [emitFoo_recvIds]
    exact h6

theorem wf_emitBar (w : World) (e : Nat) (a : Int) (b : Bool) (c : Rat) (hwf : WF w) :
    WF (emitBar w e a b c) := by
  obtain ⟨h1, h2, h3, h4, h5, h6⟩ := hwf
  refine ⟨?_, ?_, ?_, ?_, ?_, ?_⟩
  · intro p hp
    rw [emitBar_eside] at hp
    rw [emitBar_rside]
    exact h1 p hp
  · intro p hp
    rw [emitBar_rside] at hp
    rw [emitBar_eside]
    exact h2 p hp
  · rw [emitBar_eside]
    exact h3
  · rw [emitBar_rside]
    exact h4
  · intro p hp
    rw [emitBar_eside] at hp
    rw [emitBar_emitters, emitBar_recvIds]
    exact h5 p hp
  · rw [emitBar_recvIds]
    exact h6

theorem wf_destroyReceiver (w : World) (r : Nat) (hwf : WF w) : WF (destroyReceiver w r) := by
  obtain ⟨h1, h2, h3, h4, h5, h6⟩ := hwf
  rw [destroyReceiver]
  refine ⟨?_, ?_, ?_, ?_, ?_, ?_⟩
  · intro p hp
    obtain ⟨hm, hne⟩ := (dropRecv_mem w.eside r p).mp hp
    exact (dropRecv_mem w.rside r p).mpr ⟨h1 p hm, hne⟩
  · intro p hp
    obtain ⟨hm, hne⟩ := (dropRecv_mem w.rside r p).mp hp
    exact (dropRecv_mem w.eside r p).mpr ⟨h2 p hm, hne⟩
  · exact dropRecv_nodup w.eside r h3
  · exact dropRecv_nodup w.rside r h4
  · intro p hp
    obtain ⟨hm, hne⟩ := (dropRecv_mem w.eside r p).mp hp
    exact ⟨(h5 p hm).1, (dropState_ids w.receivers r p.2).mpr ⟨(h5 p hm).2, hne⟩⟩
  · exact dropState_ids_nodup w.receivers r h6

theorem wf_destroyEmitter (w : World) (e : Nat) (hwf : WF w) : WF (destroyEmitter w e) := by
  obtain ⟨h1, h2, h3, h4, h5, h6⟩ := hwf
  rw [destroyEmitter]
  refine ⟨?_, ?_, ?_, ?_, ?_, h6⟩
  · intro p hp
    obtain ⟨hm, hne⟩ := (dropEmit_mem w.eside e p).mp hp
    exact (dropEmit_mem w.rside e p).mpr ⟨h1 p hm, hne⟩
  · intro p hp
    obtain ⟨hm, hne⟩ := (dropEmit_mem w.rside e p).mp hp
    exact (dropEmit_mem w.eside e p).mpr ⟨h2 p hm, hne⟩
  · exact dropEmit_nodup w.eside e h3
  · exact dropEmit_nodup w.rside e h4
  · intro p hp
    obtain ⟨hm, hne⟩ := (dropEmit_mem w.eside e p).mp hp
    exact ⟨(removeAll_mem w.emitters e p.1).mpr ⟨(h5 p hm).1, hne⟩, (h5 p hm).2⟩

/-! ### Helper lemmas for the individual claims -/

theorem removeAll_nodup : ∀ (l : List Nat) (r : Nat), l.Nodup → (removeAll l r).Nodup := by
  intro l
  induction l with
  | nil => intro r _; simp [removeAll]
  | cons x xs ih =>
    intro r hnd
    rw [List.nodup_cons] at hnd
    by_cases h : x = r
    · rw [removeAll_cons, if_pos h]
      exact ih r hnd.2
    · rw [removeAll_cons, if_neg h, List.nodup_cons]
      exact ⟨fun hm => hnd.1 ((removeAll_mem xs r x).mp hm).1, ih r hnd.2⟩

theorem recOf_dropRecv : ∀ (l : List (Nat × Nat)) (r1 e : Nat),
    recOf (dropRecv l r1) e = removeAll (recOf l e) r1 := by
  intro l
  induction l with
  | nil => intro r1 e; rfl
  | cons p ps ih =>
    intro r1 e
    by_cases h2 : p.2 = r1
    · rw [dropRecv_cons, if_pos h2, ih]
      by_cases h1 : p.1 = e
      · rw [recOf_cons, if_pos h1, removeAll_cons, if_pos h2]
      · rw [recOf_cons, if_neg h1]
    · rw [dropRecv_cons, if_neg h2]
      by_cases h1 : p.1 = e
      · rw [recOf_cons, if_pos h1, recOf_cons, if_pos h1, removeAll_cons, if_neg h2, ih]
      · rw [recOf_cons, if_neg h1, recOf_cons, if_neg h1, ih]

theorem receiversOf_destroyReceiver (w : World) (r1 e : Nat) :
    receiversOf (destroyReceiver w r1) e = removeAll (receiversOf w e) r1 :=
  recOf_dropRecv w.eside r1 e

theorem stateOf_destroyReceiver_ne (w : World) (r r' : Nat) (h : r' ≠ r) :
    stateOf (destroyReceiver w r) r' = stateOf w r' :=
  dropState_lookup_ne w.receivers r r' h

theorem stateOf_emitFoo_not_connected (w : World) (e r : Nat) (h : (e, r) ∉ w.eside) :
    stateOf (emitFoo w e) r = stateOf w r := by
  rw [emitFoo, emit_pure_eq_foldl]
  exact foldl_update_stateOf_not_mem onFoo (receiversOf w e) w r
    (fun hm => h ((mem_receiversOf w e r).mp hm))

theorem stateOf_emitBar_not_connected (w : World) (e r : Nat) (a : Int) (b : Bool) (c : Rat)
    (h : (e, r) ∉ w.eside) : stateOf (emitBar w e a b c) r = stateOf w r := by
  rw [emitBar, emit_pure_eq_foldl]
  exact foldl_update_stateOf_not_mem (onBar a b c) (receiversOf w e) w r
    (fun hm => h ((mem_receiversOf w e r).mp hm))

theorem disconnect_not_connected (w : World) (e r : Nat) :
    (e, r) ∉ (disconnect w e r).eside := by
  intro hm
  exact ((removePair_mem w.eside (e, r) (e, r)).mp hm).2 rfl

theorem countOcc_not_mem : ∀ (l : List Nat) (x : Nat), x ∉ l → countOcc l x = 0 := by
  intro l
  induction l with
  | nil => intro x _; rfl
  | cons y ys ih =>
    intro x hnm
    rw [List.mem_cons] at hnm
    push_neg at hnm
    rw [countOcc, if_neg (fun hc => hnm.1 hc.symm), ih x hnm.2]

theorem countOcc_eq_one : ∀ (l : List Nat) (x : Nat), l.Nodup → x ∈ l → countOcc l x = 1 := by
  intro l
  induction l with
  | nil => intro x _ hm; exact absurd hm (List.not_mem_nil x)
  | cons y ys ih =>
    intro x hnd hm
    rw [List.nodup_cons] at hnd
    rcases List.mem_cons.mp hm with rfl | hm
    · rw [countOcc, if_pos rfl, countOcc_not_mem ys x hnd.1]
    · have hne : y ≠ x := fun hc => hnd.1 (hc ▸ hm)
      rw [countOcc, if_neg hne, ih x hnd.2 hm]

theorem lookupState_append_fresh :
    ∀ (l : List (Nat × ReceiverState)) (r : Nat) (s : ReceiverState),
      r ∉ l.map (fun q => q.1) → lookupState (l ++ [(r, s)]) r = some s := by
  intro l
  induction l with
  | nil =>
    intro r s _
    rw [List.nil_append, lookupState_cons, if_pos rfl]
  | cons p ps ih =>
    intro r s hnm
    rw [List.map_cons, List.mem_cons] at hnm
    push_neg at hnm
    rw [List.cons_append, lookupState_cons, if_neg (fun hc => hnm.1 hc.symm), ih r s hnm.2]

theorem stateOf_addReceiver_fresh (w : World) (r : Nat) (h : r ∉ recvIds w) :
    stateOf (addReceiver w r) r = some ReceiverState.start :=
  lookupState_append_fresh w.receivers r ReceiverState.start h

theorem emitRun_invoked_sublist (w : World) (e : Nat) (cb : Nat → World → World) :
    (emitRun w e cb).2.Sublist (receiversOf w e) :=
  emitGo_invoked_sublist e cb (receiversOf w e) w

theorem emitRun_not_snapshot (w : World) (e : Nat) (cb : Nat → World → World)
    (r : Nat) (h : r ∉ receiversOf w e) : r ∉ (emitRun w e cb).2 :=
  fun hm => h ((emitRun_invoked_sublist w e cb).subset hm)

/-- A receiver that is no longer connected by the time the emission loop
reaches it is skipped: its callback is not invoked in that emission. -/
theorem emitRun_skips_disconnected (w : World) (e : Nat) (cb : Nat → World → World)
    (la lb : List Nat) (r1 : Nat)
    (hsnap : receiversOf w e = la ++ r1 :: lb)
    (hnd : (receiversOf w e).Nodup)
    (hgone : (e, r1) ∉ (emitGo e cb la w).1.eside) :
    r1 ∉ (emitRun w e cb).2 := by
  rw [hsnap] at hnd
  rw [List.nodup_append] at hnd
  obtain ⟨hla, hcons, hdisj⟩ := hnd
  rw [List.nodup_cons] at hcons
  have hr1a : r1 ∉ la := fun hm => hdisj hm (List.mem_cons_self r1 lb)
  have hr1b : r1 ∉ lb := hcons.1
  rw [emitRun, hsnap, emitGo_append]
  intro hm
  rcases List.mem_append.mp hm with hm | hm
  · exact hr1a ((emitGo_invoked_sublist e cb la w).subset hm)
  · rw [emitGo_cons, if_neg hgone] at hm
    exact hr1b ((emitGo_invoked_sublist e cb lb (emitGo e cb la w).1).subset hm)

theorem destroyEmitter_rside_clean (w : World) (e : Nat) :
    ∀ p ∈ (destroyEmitter w e).rside, p.1 ≠ e := by
  intro p hp
  exact ((dropEmit_mem w.rside e p).mp hp).2

theorem destroyEmitter_receivers (w : World) (e : Nat) :
    (destroyEmitter w e).receivers = w.receivers := rfl

theorem barCval_eq_div : barCval = 23 / 10 := by
  rw [barCval, Rat.mk'_eq_divInt, Rat.divInt_eq_div]
  norm_num

/-! ### Claim theorems -/

/-- C1: for every emitter with any number of connected receivers, a
single `Emit(Foo)` increments each connected receiver's Foo-call counter
by exactly 1 (all other fields, in particular the Bar-call counter and
the recorded Bar arguments, unchanged), and leaves every unconnected
receiver's state entirely unchanged. -/
theorem emit_foo_multicast (w : World) (e : Nat) (hwf : WF w) (r : Nat) (s : ReceiverState)
    (hs : stateOf w r = some s) :
    (r ∈ receiversOf w e →
      stateOf (emitFoo w e) r = some { s with foo_call_count := s.foo_call_count + 1 })
    ∧ (r ∉ receiversOf w e → stateOf (emitFoo w e) r = some s) := by
  have hchar := stateOf_emitFoo w e r (receiversOf_nodup w e hwf)
  constructor
  · intro hm
    rw [hchar, if_pos hm, hs]
    rfl
  · intro hm
    rw [hchar, if_neg hm, hs]

theorem emit_foo_multicast_witness :
    WF Wone ∧ stateOf Wone 1 = some ReceiverState.start ∧ 1 ∈ receiversOf Wone 0 ∧
      stateOf (emitFoo Wone 0) 1 =
        some { ReceiverState.start with
                foo_call_count := ReceiverState.start.foo_call_count + 1 } :=
  ⟨by decide, by decide, by decide,
    (emit_foo_multicast Wone 0 (by decide) 1 ReceiverState.start (by decide)).1 (by decide)⟩

/-- C2: `Emit(Bar, a, b, c)` delivers the exact argument values to every
connected receiver (Bar-call counter +1, recorded arguments set to
`a, b, c`, Foo counter untouched) and leaves unconnected receivers
unchanged; concretely, in the 1-emitter-to-5-receivers scenario,
`EmitBar(1, true, 2.3)` leaves every one of the five receivers with
`BarCallCount = 1`, `BarA = 1`, `BarB = true`, `BarC = 23/10` and
`FooCallCount = 0`. -/
theorem emit_bar_forwards_arguments (w : World) (e : Nat) (a : Int) (b : Bool) (c : Rat)
    (hwf : WF w) (r : Nat) (s : ReceiverState) (hs : stateOf w r = some s) :
    (r ∈ receiversOf w e →
      stateOf (emitBar w e a b c) r =
        some { s with bar_call_count := s.bar_call_count + 1,
                      bar_a := a, bar_b := b, bar_c := c })
    ∧ (r ∉ receiversOf w e → stateOf (emitBar w e a b c) r = some s)
    ∧ (∀ r' ∈ [1, 2, 3, 4, 5],
        stateOf (emitBar Wbar5 0 1 true barCval) r' = some ⟨0, 1, 1, true, barCval⟩) := by
  have hchar := stateOf_emitBar w e a b c r (receiversOf_nodup w e hwf)
  refine ⟨?_, ?_, by decide⟩
  · intro hm
    rw [hchar, if_pos hm, hs]
    rfl
  · intro hm
    rw [hchar, if_neg hm, hs]

theorem emit_bar_forwards_arguments_witness :
    WF Wbar5 ∧ stateOf Wbar5 3 = some ReceiverState.start ∧ 3 ∈ receiversOf Wbar5 0 ∧
      stateOf (emitBar Wbar5 0 1 true barCval) 3 =
        some { ReceiverState.start with
                bar_call_count := ReceiverState.start.bar_call_count + 1,
                bar_a := 1, bar_b := true, bar_c := barCval } :=
  ⟨by decide, by decide, by decide,
    (emit_bar_forwards_arguments Wbar5 0 1 true barCval (by decide) 3 ReceiverState.start
      (by decide)).1 (by decide)⟩

/-- C3 counterexample: in a world where emitter 0 is connected to
receivers 1 and 2, destroying receiver 1 and then emitting on the
surviving emitter DOES change remaining receiver 2's call counts (its
Foo counter is incremented), refuting the claim that a subsequent Emit
does not change any remaining receiver's call counts. -/
theorem emit_after_destroy_changes_remaining :
    ¬ (stateOf (emitFoo (destroyReceiver Wone 1) 0) 2 = stateOf (destroyReceiver Wone 1) 2) := by
  decide

/-- C3 (amended): destroying a connected receiver removes it from the
emitter's set, a subsequent Emit on the surviving emitter never invokes
a callback on the destroyed receiver, and the destruction does not
affect the remaining receivers: each remaining receiver's state after
the Emit is exactly what the same Emit would have produced without the
destruction. -/
theorem destroy_receiver_then_emit (w : World) (e r1 : Nat) (hwf : WF w) :
    (r1 ∉ receiversOf (destroyReceiver w r1) e)
    ∧ (r1 ∉ (emitRun (destroyReceiver w r1) e (fun r w' => updateState w' r onFoo)).2)
    ∧ (∀ r', r' ≠ r1 →
        stateOf (emitFoo (destroyReceiver w r1) e) r' = stateOf (emitFoo w e) r') := by
  have hsnap := receiversOf_destroyReceiver w r1 e
  have hnotin : r1 ∉ receiversOf (destroyReceiver w r1) e := by
    rw [hsnap]
    intro hm
    exact ((removeAll_mem (receiversOf w e) r1 r1).mp hm).2 rfl
  refine ⟨hnotin, emitRun_not_snapshot (destroyReceiver w r1) e _ r1 hnotin, ?_⟩
  intro r' hne
  have hndD : (receiversOf (destroyReceiver w r1) e).Nodup :=
    receiversOf_nodup (destroyReceiver w r1) e (wf_destroyReceiver w r1 hwf)
  have hnd : (receiversOf w e).Nodup := receiversOf_nodup w e hwf
  rw [stateOf_emitFoo (destroyReceiver w r1) e r' hndD, stateOf_emitFoo w e r' hnd,
    stateOf_destroyReceiver_ne w r1 r' hne, hsnap]
  by_cases hm : r' ∈ receiversOf w e
  · rw [if_pos ((removeAll_mem (receiversOf w e) r1 r').mpr ⟨hm, hne⟩), if_pos hm]
  · rw [if_neg (fun hc => hm ((removeAll_mem (receiversOf w e) r1 r').mp hc).1), if_neg hm]

theorem destroy_receiver_then_emit_witness :
    WF Wone ∧ (2 : Nat) ≠ 1 ∧
      stateOf (emitFoo (destroyReceiver Wone 1) 0) 2 = stateOf (emitFoo Wone 0) 2 :=
  ⟨by decide, by decide,
    (destroy_receiver_then_emit Wone 0 1 (by decide)).2.2 2 (by decide)⟩

/-- C4: every registry operation (Connect with live endpoints,
Disconnect, Emit, destruction of either endpoint) preserves the global
invariant that the emitter-side and receiver-side connection views are
mutually consistent (with no duplicates and only live endpoints); in
particular, destroying an emitter removes the reciprocal back-reference
from every receiver-side entry, leaves every receiver alive, and leaves
each receiver independently destructible. -/
theorem connection_bookkeeping_consistent (w : World) (e r : Nat) (hwf : WF w) :
    (e ∈ w.emitters → r ∈ recvIds w → WF (connect w e r))
    ∧ WF (disconnect w e r)
    ∧ WF (emitFoo w e)
    ∧ WF (destroyReceiver w r)
    ∧ WF (destroyEmitter w e)
    ∧ (∀ p ∈ (destroyEmitter w e).rside, p.1 ≠ e)
    ∧ (destroyEmitter w e).receivers = w.receivers
    ∧ WF (destroyReceiver (destroyEmitter w e) r) :=
  ⟨fun he hr => wf_connect w e r hwf he hr,
   wf_disconnect w e r hwf,
   wf_emitFoo w e hwf,
   wf_destroyReceiver w r hwf,
   wf_destroyEmitter w e hwf,
   destroyEmitter_rside_clean w e,
   destroyEmitter_receivers w e,
   wf_destroyReceiver (destroyEmitter w e) r (wf_destroyEmitter w e hwf)⟩

theorem connection_bookkeeping_consistent_witness :
    WF Wone ∧ 0 ∈ Wone.emitters ∧ 1 ∈ recvIds Wone ∧ WF (connect Wone 0 1) :=
  ⟨by decide, by decide, by decide,
    (connection_bookkeeping_consistent Wone 0 1 (by decide)).1 (by decide) (by decide)⟩

/-- C5: for an emission in progress, with arbitrary callbacks that may
reconnect or disconnect receivers mid-emission: the invoked receivers
form a duplicate-free sublist of the start-of-emission snapshot (so no
receiver is invoked twice and the order is stable); a receiver not
connected when the emission started is not invoked; a receiver that has
been disconnected by the time the loop reaches it is skipped, its
callback never invoked; and a self-disconnect from inside a receiver's
own callback causes every snapshot receiver to still be invoked exactly
once (no other receiver skipped or duplicated). -/
theorem emit_reentrancy_safety (w : World) (e : Nat) (cb : Nat → World → World) (hwf : WF w) :
    ((emitRun w e cb).2.Sublist (receiversOf w e))
    ∧ ((emitRun w e cb).2.Nodup)
    ∧ (∀ r', r' ∉ receiversOf w e → r' ∉ (emitRun w e cb).2)
    ∧ (∀ la lb r1, receiversOf w e = la ++ r1 :: lb →
        (e, r1) ∉ (emitGo e cb la w).1.eside → r1 ∉ (emitRun w e cb).2)
    ∧ (∀ r0, (emitRun w e (selfDiscCb e r0)).2 = receiversOf w e) :=
  ⟨emitRun_invoked_sublist w e cb,
   List.Nodup.sublist (emitRun_invoked_sublist w e cb) (receiversOf_nodup w e hwf),
   fun r' => emitRun_not_snapshot w e cb r',
   fun la lb r1 hsnap => emitRun_skips_disconnected w e cb la lb r1 hsnap
     (receiversOf_nodup w e hwf),
   fun r0 => emitGo_selfDisc e r0 (receiversOf w e) w (receiversOf_nodup w e hwf)
     (fun r hr => (mem_receiversOf w e r).mp hr)⟩

theorem emit_reentrancy_safety_witness :
    WF Wthree ∧ receiversOf Wthree 0 = [1, 2] ++ 3 :: [] ∧
      ((0, 3) ∉ (emitGo 0 (otherDiscCb 0 1 3) [1, 2] Wthree).1.eside) ∧
      3 ∉ (emitRun Wthree 0 (otherDiscCb 0 1 3)).2 :=
  ⟨by decide, by decide, by decide,
    (emit_reentrancy_safety Wthree 0 (otherDiscCb 0 1 3) (by decide)).2.2.2.1
      [1, 2] [] 3 (by decide) (by decide)⟩

/-- C6: after `Disconnect`, the pair is gone from the emitter's set, and
every subsequent Emit (`Foo` or `Bar`) on that emitter leaves the
disconnected receiver's entire callback state unchanged, while also
leaving the pair disconnected (so the property persists across any
sequence of subsequent emissions). -/
theorem disconnect_stops_delivery (w : World) (e r : Nat) :
    ((e, r) ∉ (disconnect w e r).eside)
    ∧ (∀ w', (e, r) ∉ w'.eside →
        (stateOf (emitFoo w' e) r = stateOf w' r ∧ (e, r) ∉ (emitFoo w' e).eside)
        ∧ (∀ a b c, stateOf (emitBar w' e a b c) r = stateOf w' r
            ∧ (e, r) ∉ (emitBar w' e a b c).eside)) := by
  refine ⟨disconnect_not_connected w e r, ?_⟩
  intro w' hnc
  refine ⟨⟨stateOf_emitFoo_not_connected w' e r hnc, ?_⟩, ?_⟩
  · rw [emitFoo_eside]
    exact hnc
  · intro a b c
    refine ⟨stateOf_emitBar_not_connected w' e r a b c hnc, ?_⟩
    rw [emitBar_eside]
    exact hnc

theorem disconnect_stops_delivery_witness :
    ((0, 1) ∉ (disconnect Wone 0 1).eside) ∧
      stateOf (emitFoo (disconnect Wone 0 1) 0) 1 = stateOf (disconnect Wone 0 1) 1 :=
  ⟨(disconnect_stops_delivery Wone 0 1).1,
    ((disconnect_stops_delivery Wone 0 1).2 (disconnect Wone 0 1)
      (disconnect_not_connected Wone 0 1)).1.1⟩

/-- C7: for any emitter connected to a shared receiver, each `EmitFoo`
on that emitter increments the receiver's Foo counter by exactly 1 and
each `EmitBar` overwrites the recorded Bar arguments with that call's
values (so they always reflect the most recent `EmitBar`); concretely,
with 5 emitters connected to one receiver, after the k-th `EmitFoo` in
sequence the receiver's `FooCallCount` equals k. -/
theorem many_emitters_one_receiver (w : World) (e r : Nat) (s : ReceiverState)
    (hwf : WF w) (hconn : (e, r) ∈ w.eside) (hs : stateOf w r = some s) :
    (stateOf (emitFoo w e) r = some { s with foo_call_count := s.foo_call_count + 1 })
    ∧ (∀ a b c, stateOf (emitBar w e a b c) r =
        some { s with bar_call_count := s.bar_call_count + 1,
                      bar_a := a, bar_b := b, bar_c := c })
    ∧ (∀ k, k ≤ 5 →
        (stateOf (emitSeq Wfoo5 (List.range k)) 10).map (fun t => t.foo_call_count) = some k) := by
  have hm : r ∈ receiversOf w e := (mem_receiversOf w e r).mpr hconn
  refine ⟨?_, ?_, by decide⟩
  · rw [stateOf_emitFoo w e r (receiversOf_nodup w e hwf), if_pos hm, hs]
    rfl
  · intro a b c
    rw [stateOf_emitBar w e a b c r (receiversOf_nodup w e hwf), if_pos hm, hs]
    rfl

theorem many_emitters_one_receiver_witness :
    WF Wfoo5 ∧ (0, 10) ∈ Wfoo5.eside ∧ stateOf Wfoo5 10 = some ReceiverState.start ∧
      stateOf (emitFoo Wfoo5 0) 10 =
        some { ReceiverState.start with
                foo_call_count := ReceiverState.start.foo_call_count + 1 } :=
  ⟨by decide, by decide, by decide,
    (many_emitters_one_receiver Wfoo5 0 10 ReceiverState.start (by decide) (by decide)
      (by decide)).1⟩

/-- C8: Connect is idempotent — a second Connect of the same pair is the
identity, the receiver appears exactly once in the emitter's set, the
emitter appears exactly once in the receiver's set, and a subsequent
Emit invokes that receiver's callback exactly once (its Foo counter
grows by exactly 1). -/
theorem connect_idempotent (w : World) (e r : Nat) (hwf : WF w)
    (he : e ∈ w.emitters) (hr : r ∈ recvIds w) :
    connect (connect w e r) e r = connect w e r
    ∧ countOcc (receiversOf (connect (connect w e r) e r) e) r = 1
    ∧ countOcc (emittersOf (connect (connect w e r) e r) r) e = 1
    ∧ (∀ s, stateOf (connect (connect w e r) e r) r = some s →
        stateOf (emitFoo (connect (connect w e r) e r) e) r =
          some { s with foo_call_count := s.foo_call_count + 1 }) := by
  have heq : connect (connect w e r) e r = connect w e r :=
    connect_already (connect w e r) e r (connect_mem_eside w e r)
  have hwf1 : WF (connect w e r) := wf_connect w e r hwf he hr
  have hmemE : (e, r) ∈ (connect w e r).eside := connect_mem_eside w e r
  have hmemR : (e, r) ∈ (connect w e r).rside := hwf1.1 (e, r) hmemE
  rw [heq]
  refine ⟨rfl, ?_, ?_, ?_⟩
  · exact countOcc_eq_one (receiversOf (connect w e r) e) r
      (receiversOf_nodup (connect w e r) e hwf1)
      ((mem_receiversOf (connect w e r) e r).mpr hmemE)
  · exact countOcc_eq_one (emittersOf (connect w e r) r) e
      (emittersOf_nodup (connect w e r) r hwf1)
      ((mem_emittersOf (connect w e r) e r).mpr hmemR)
  · intro s hs
    rw [stateOf_emitFoo (connect w e r) e r (receiversOf_nodup (connect w e r) e hwf1),
      if_pos ((mem_receiversOf (connect w e r) e r).mpr hmemE), hs]
    rfl

theorem connect_idempotent_witness :
    WF Wone ∧ 0 ∈ Wone.emitters ∧ 1 ∈ recvIds Wone ∧
      countOcc (receiversOf (connect (connect Wone 0 1) 0 1) 0) 1 = 1 :=
  ⟨by decide, by decide, by decide,
    (connect_idempotent Wone 0 1 (by decide) (by decide) (by decide)).2.1⟩

/-- C9: the registry operations are total functions that cannot fail;
in the contract's edge cases they are exact no-ops: a duplicate Connect
of an already-connected pair returns the world unchanged, a Disconnect
of an absent pair returns the world unchanged, and an Emit (`Foo` or
`Bar`) with zero connected receivers returns the world unchanged. -/
theorem ops_never_fail (w : World) (e r : Nat) (a : Int) (b : Bool) (c : Rat) :
    ((e, r) ∈ w.eside → connect w e r = w)
    ∧ ((e, r) ∉ w.eside → (e, r) ∉ w.rside → disconnect w e r = w)
    ∧ (receiversOf w e = [] → emitFoo w e = w ∧ emitBar w e a b c = w) := by
  refine ⟨connect_already w e r, ?_, ?_⟩
  · intro h1 h2
    rw [disconnect, removePair_eq_self w.eside (e, r) h1, removePair_eq_self w.rside (e, r) h2]
  · intro hempty
    constructor
    · rw [emitFoo, emitRun, hempty, emitGo_nil]
    · rw [emitBar, emitRun, hempty, emitGo_nil]

theorem ops_never_fail_witness :
    (0, 1) ∈ Wone.eside ∧ connect Wone 0 1 = Wone :=
  ⟨by decide, (ops_never_fail Wone 0 1 0 false 0).1 (by decide)⟩

/-- C10: Connect alone never invokes any contract callback — it leaves
every receiver's callback state untouched; in particular a freshly
constructed receiver's state immediately after Connect is the default
state: both call counters 0 and Bar arguments at their defaults
(0, false, 0). -/
theorem connect_invokes_no_callbacks (w : World) (e r r' : Nat) :
    (stateOf (connect w e r) r' = stateOf w r')
    ∧ (r ∉ recvIds w →
        stateOf (connect (addReceiver w r) e r) r =
          some { foo_call_count := 0, bar_call_count := 0,
                 bar_a := 0, bar_b := false, bar_c := 0 }) := by
  refine ⟨connect_stateOf w e r r', ?_⟩
  intro hfresh
  rw [connect_stateOf (addReceiver w r) e r r]
  exact stateOf_addReceiver_fresh w r hfresh

theorem connect_invokes_no_callbacks_witness :
    (7 ∉ recvIds Wone) ∧
      stateOf (connect (addReceiver Wone 7) 0 7) 7 =
        some { foo_call_count := 0, bar_call_count := 0,
               bar_a := 0, bar_b := false, bar_c := 0 } :=
  ⟨by decide, (connect_invokes_no_callbacks Wone 0 7 7).2 (by decide)⟩

end MethaneEvents
